import Mathlib

/-
Shallow embedding of the redis-lite server (Go sources: resp/reader.go,
resp writer and value files, main.go).  Byte streams are finite lists of
Nat (byte values 0..255); the end of the list models end-of-stream (EOF).
-/

namespace RedisLite

/-- The RESP value model (`type Value struct` with tag `Type`): a tagged
union over the five wire kinds.  The Go struct carries all fields at once
but the decoder only ever populates the field matching the tag, so an
inductive is an exact model of decoder-produced values.  `bulk none`
models a nil byte slice (the null bulk), distinct from `bulk (some [])`. -/
inductive Value : Type where
  | simple (s : List Nat)
  | error (s : List Nat)
  | int (i : Int)
  | bulk (b : Option (List Nat))
  | array (a : List Value)

/-- Go field access `v.B`: nil for every variant except BulkString, where a
decoded value carries the payload slice (possibly nil). -/
def Value.B : Value → Option (List Nat)
  | .bulk b => b
  | _ => none

/-- `string(v.B)`: a nil slice converts to the empty string. -/
def Value.bytes (v : Value) : List Nat := v.B.getD []

/-- Go field access `v.A`: nil for every variant except Array. -/
def Value.elems : Value → List Value
  | .array a => a
  | _ => []

/-- `v.T == resp.BulkString` (true also for the null bulk). -/
def Value.isBulk : Value → Bool
  | .bulk _ => true
  | _ => false

/-- The bytes `"\r\n"`. -/
def crlf : List Nat := [13, 10]

/-- ASCII bytes of a (pure-ASCII) Lean string literal, used to transcribe
the string constants of the Go source. -/
def ascii (s : String) : List Nat := s.data.map Char.toNat

/-- `strings.ToUpper` restricted to its effect on ASCII bytes; command
names compared against it are ASCII literals.  Not modelled: Go first
interprets the bytes as UTF-8 (invalid sequences become U+FFFD) and
applies the Unicode case mapping, so some non-ASCII byte sequences
uppercase to ASCII (for example U+017F to `S`) where this function
leaves them unchanged; that difference only affects which reply the
dispatcher's unknown-command fallback produces for non-ASCII command
names. -/
def asciiUpper (l : List Nat) : List Nat :=
  l.map (fun c => if 97 ≤ c ∧ c ≤ 122 then c - 32 else c)

/-- `bufio.Reader.ReadBytes('\n')`: the bytes up to and including the
first LF, or `none` when the stream ends first (the partial data is
discarded by `readLine`, which returns `"", err` in that case). -/
def readBytesNL : List Nat → Option (List Nat × List Nat)
  | [] => none
  | c :: rest =>
    if c = 10 then some ([10], rest)
    else
      match readBytesNL rest with
      | none => none
      | some (l, r) => some (c :: l, r)

/-- `bytes.TrimSuffix(b, []byte("\r\n"))`: drop one trailing CRLF if
present, otherwise leave the bytes unchanged. -/
def trimCRLF (l : List Nat) : List Nat :=
  if l.reverse.take 2 = [10, 13] then (l.reverse.drop 2).reverse else l

/-- `readLine` from resp/reader.go: read through the next LF and trim one
trailing CRLF.  On an I/O failure (no LF before EOF) it returns the error
and the empty string; the partial bytes are discarded. -/
def readLine (s : List Nat) : Option (List Nat × List Nat) :=
  match readBytesNL s with
  | none => none
  | some (l, r) => some (trimCRLF l, r)

/-- A list of ASCII digit bytes, nonempty (the digit part accepted by
`strconv.ParseInt`). -/
def allDigits (l : List Nat) : Bool :=
  !l.isEmpty && l.all (fun c => 48 ≤ c && c ≤ 57)

/-- Numeric value of a digit-byte list, most significant first. -/
def digitsToNat (l : List Nat) : Nat :=
  l.foldl (fun a c => a * 10 + (c - 48)) 0

/-- `strconv.ParseInt`'s clamping on positive overflow: out-of-range
magnitudes come back as MaxInt64 together with ErrRange (which the caller
discards). -/
def clampPos (n : Nat) : Int :=
  if n ≤ 2 ^ 63 - 1 then (n : Int) else (2 ^ 63 - 1 : Int)

/-- `strconv.ParseInt`'s clamping on negative overflow (MinInt64). -/
def clampNeg (n : Nat) : Int :=
  if n ≤ 2 ^ 63 then -(n : Int) else -(2 ^ 63 : Int)

/-- Unsigned-digit part of `strconv.ParseInt` (no sign byte): 0 on a
syntax error, the clamped value otherwise. -/
def parsePos (l : List Nat) : Int :=
  if allDigits l then clampPos (digitsToNat l) else 0

/-- `strconv.ParseInt(s, 10, 64)` (and equivalently `strconv.Atoi` on a
64-bit platform) with the error discarded, as every call site in
resp/reader.go does: 0 on a syntax error, the clamped signed value
otherwise. -/
def goParseInt64 : List Nat → Int
  | [] => 0
  | c :: rest =>
    if c = 43 then parsePos rest
    else if c = 45 then (if allDigits rest then clampNeg (digitsToNat rest) else 0)
    else parsePos (c :: rest)

/-- Two's-complement wrap of an integer into the int64 range, modelling
Go's defined wrap-around on signed arithmetic. -/
def wrap64 (x : Int) : Int :=
  (x + 2 ^ 63) % 2 ^ 64 - 2 ^ 63

/-- Outcome of one `resp.Read` call.  Go returns `(Value, error)` where
the error is either an I/O error (from `ReadByte` / `io.ReadFull`) or the
protocol error `errors.New("unknown RESP prefix")`; a run-time panic
(negative `make` length or negative slice bound) is a distinct outcome
that unwinds the goroutine and, being unrecovered, aborts the process.
`fuelOut` is an artefact of the fuel-indexed embedding and is never
reached when the fuel exceeds the stream length. -/
inductive ReadResult : Type where
  | ok (v : Value) (rest : List Nat)
  | ioError
  | protoError
  | panicked
  | fuelOut

/-- `n` sequential element reads for the Array case of `resp.Read`
(`for i := 0; i < n; i++`): any element failure aborts the array. -/
def readElems (rd : List Nat → ReadResult) : Nat → List Nat → List Value → ReadResult
  | 0, r, acc => .ok (.array acc.reverse) r
  | k + 1, r, acc =>
    match rd r with
    | .ok v r2 => readElems rd k r2 (v :: acc)
    | e => e

/-- `line, _ := readLine(r)` with the error discarded: on an I/O failure
the line is the empty string and the reader is at EOF. -/
def readLineOr (s : List Nat) : List Nat × List Nat :=
  match readLine s with
  | none => ([], [])
  | some q => q

/-- The Bulk String case of `resp.Read` after its length line has been
read: length -1 is the null bulk; a length below -1 makes
`make([]byte, n+2)` (or the slice bound `buf[:n]`) panic; a length whose
`n+2` wraps past MaxInt64 makes `make` panic on a negative size;
otherwise `io.ReadFull` wants exactly `n+2` bytes and fails on a shorter
stream, and the payload is the first `n` of them. -/
def readBulkBody (nstr r : List Nat) : ReadResult :=
  let n := goParseInt64 nstr
  if n = -1 then .ok (.bulk none) r
  else if n < -1 then .panicked
  else if wrap64 (n + 2) < 0 then .panicked
  else if r.length < n.toNat + 2 then .ioError
  else .ok (.bulk (some (r.take n.toNat))) (r.drop (n.toNat + 2))

/-- The Array case of `resp.Read` after its count line has been read:
`make([]Value, n)` panics on a negative count, otherwise exactly `n`
values are decoded in order. -/
def readArrayBody (rd : List Nat → ReadResult) (nstr r : List Nat) : ReadResult :=
  let n := goParseInt64 nstr
  if n < 0 then .panicked
  else readElems rd n.toNat r []

/-- One layer of `resp.Read`, parameterised by the function used for the
recursive element reads of the Array case.  Mirrors the Go switch on the
first byte: 43 `+`, 45 `-`, 58 `:`, 36 `$`, 42 `*`.  The `none` branches
of `readLine` model the discarded I/O error (`line, _ := readLine(r)`):
the bufio reader is then at EOF and the line is the empty string. -/
def readStep (rd : List Nat → ReadResult) : List Nat → ReadResult
  | [] => .ioError
  | c :: rest =>
    if c = 43 then
      match readLine rest with
      | none => .ok (.simple []) []
      | some (l, r) => .ok (.simple l) r
    else if c = 45 then
      match readLine rest with
      | none => .ok (.error []) []
      | some (l, r) => .ok (.error l) r
    else if c = 58 then
      match readLine rest with
      | none => .ok (.int 0) []
      | some (l, r) => .ok (.int (goParseInt64 l)) r
    else if c = 36 then readBulkBody (readLineOr rest).1 (readLineOr rest).2
    else if c = 42 then readArrayBody rd (readLineOr rest).1 (readLineOr rest).2
    else .protoError

/-- Fuel-indexed `resp.Read`; the fuel only bounds the Array nesting
depth, which is at most the stream length since every completed read
consumes its one-byte kind tag. -/
def readF (fuel : Nat) : List Nat → ReadResult :=
  match fuel with
  | 0 => fun _ => ReadResult.fuelOut
  | f + 1 => readStep (readF f)

/-- `resp.Read`: decode one value from the byte stream. -/
def Read (s : List Nat) : ReadResult := readF (s.length + 1) s

/-- The decoded value alone (ignoring the unconsumed rest), for stating
the spec's round-trip equation `decode(encode(v)) == v`. -/
def decodeValue (s : List Nat) : Option Value :=
  match Read s with
  | .ok v _ => some v
  | _ => none

/-- `resp.WriteSimpleString`: `+TEXT\r\n`. -/
def WriteSimpleString (s : List Nat) : List Nat := 43 :: s ++ crlf

/-- `resp.WriteError`: `-TEXT\r\n`. -/
def WriteError (s : List Nat) : List Nat := 45 :: s ++ crlf

/-- `%d` rendering of a natural number (most significant digit first),
fuel-indexed so that it computes by kernel reduction; any fuel above the
value itself yields the digits. -/
def natDigitsFuel : Nat → Nat → List Nat
  | 0, _ => []
  | fuel + 1, n =>
    if n = 0 then [] else natDigitsFuel fuel (n / 10) ++ [n % 10 + 48]

/-- Decimal byte rendering of a natural number. -/
def natToDecimal (n : Nat) : List Nat :=
  if n = 0 then [48] else natDigitsFuel (n + 1) n

/-- `fmt` `%d` rendering of a signed integer. -/
def intToDecimal (i : Int) : List Nat :=
  if i < 0 then 45 :: natToDecimal i.natAbs else natToDecimal i.toNat

/-- `resp.WriteInteger`: `:N\r\n`. -/
def WriteInteger (i : Int) : List Nat := 58 :: intToDecimal i ++ crlf

/-- `resp.WriteBulk`: `$-1\r\n` for a nil slice, else
`$N\r\n<payload>\r\n`. -/
def WriteBulk : Option (List Nat) → List Nat
  | none => 36 :: 45 :: 49 :: crlf
  | some b => 36 :: natToDecimal b.length ++ crlf ++ b ++ crlf

/-- The scalar encoders of resp, dispatched on the value kind exactly as
`resp.WriteArray` dispatches per element; a nested array is rejected by
`WriteArray` (`unsupported nested type`) and is not given an encoding. -/
def writeScalar : Value → List Nat
  | .simple s => WriteSimpleString s
  | .error s => WriteError s
  | .int i => WriteInteger i
  | .bulk b => WriteBulk b
  | .array _ => []

/-- `type Entry struct`: raw payload (a Go byte slice, which can be nil —
`SET` stores `args[2].B` unchanged, so nil survives) and absolute expiry
in unix milliseconds, 0 meaning no expiry. -/
structure Entry : Type where
  val : Option (List Nat)
  exp : Int
deriving DecidableEq

/-- The store's `map[string]Entry`, modelled as an association list whose
first binding for a key is its value; every operation below preserves
key uniqueness, matching Go map semantics.  Keys are Go strings, i.e.
byte sequences. -/
abbrev Store : Type := List (List Nat × Entry)

/-- Go map indexing `s.data[key]`. -/
def Store.find : Store → List Nat → Option Entry
  | [], _ => none
  | (k, e) :: rest, key => if k = key then some e else Store.find rest key

/-- Go map `delete(s.data, key)`: remove the binding for `key`. -/
def Store.erase : Store → List Nat → Store
  | [], _ => []
  | (k, e) :: rest, key =>
    if k = key then Store.erase rest key else (k, e) :: Store.erase rest key

/-- Key uniqueness, the invariant Go's map gives for free. -/
def keysNodup (d : Store) : Prop := (d.map Prod.fst).Nodup

/-- `Store.set` (main.go): expiry `now + ttlMs` (with Go's wrapping int64
addition) when `ttlMs > 0`, else 0; the entry replaces any existing one. -/
def Store.set (d : Store) (key : List Nat) (v : Option (List Nat))
    (ttlMs now : Int) : Store :=
  let exp : Int := if ttlMs > 0 then wrap64 (now + ttlMs) else 0
  (key, ⟨v, exp⟩) :: Store.erase d key

/-- `Store.get` (main.go): lazy expiry — a present entry whose expiry is
nonzero and strictly before `now` is reported absent, without mutating
the map. -/
def Store.get (d : Store) (key : List Nat) (now : Int) : Option Entry :=
  match Store.find d key with
  | none => none
  | some e => if e.exp > 0 ∧ now > e.exp then none else some e

/-- `Store.del` (main.go): remove each listed key that is physically
present (no lazy-expiry check) and count the removals. -/
def Store.del : Store → List (List Nat) → Store × Nat
  | d, [] => (d, 0)
  | d, k :: ks =>
    if (Store.find d k).isSome then
      let r := Store.del (Store.erase d k) ks
      (r.1, r.2 + 1)
    else Store.del d ks

/-- The `TTL` computation of `handleTTL` (main.go): a direct map lookup
(no lazy-expiry filtering), then -2 if absent, -1 if expiry is 0; the
remaining milliseconds `ms := e.exp - now` are computed with Go's
wrapping int64 subtraction (modelled by `wrap64`), then -2 if `ms` is
negative, else `ms` in whole seconds.  Go's `/` truncates toward zero;
the dividend is nonnegative on the only path that divides, where
truncation and floor division coincide. -/
def Store.ttl (d : Store) (key : List Nat) (now : Int) : Int :=
  match Store.find d key with
  | none => -2
  | some e =>
    if e.exp = 0 then -1
    else
      let ms := wrap64 (e.exp - now)
      if ms < 0 then -2
      else ms / 1000

/-- One tick of the janitor started by `startJanitor` (main.go): under
the exclusive lock, delete every entry whose expiry is nonzero and
strictly before the scan time. -/
def janitorSweep (now : Int) : Store → Store
  | [] => []
  | (k, e) :: rest =>
    if e.exp > 0 ∧ now > e.exp then janitorSweep now rest
    else (k, e) :: janitorSweep now rest

/-- `parseIntMs` (main.go): the naive digit fold `n = n*10 + int64(c-'0')`
over the raw bytes, with Go's wrapping byte subtraction and wrapping
int64 arithmetic, then multiplied by the unit factor. -/
def parseIntMs (b : List Nat) (mul : Int) : Int :=
  wrap64 ((b.foldl (fun n c => wrap64 (n * 10 + (((c + 208) % 256 : Nat) : Int))) 0) * mul)

/-- `args[i]` under Go's bounds discipline; every call site below is
guarded by a length check, so the default is never consulted. -/
def argV (args : List Value) (i : Nat) : Value := args.getD i (Value.bulk none)

/-- `args[i].B`. -/
def argB (args : List Value) (i : Nat) : Option (List Nat) := (argV args i).B

/-- `string(args[i].B)` as bytes. -/
def argBytes (args : List Value) (i : Nat) : List Nat := (argB args i).getD []

/-- `handleSet` (main.go): `SET key value [EX seconds|PX milliseconds]`.
The value stored is `args[2].B` unchanged (nil stays nil); an option pair
other than EX/PX is silently ignored. -/
def handleSetCmd (d : Store) (now : Int) (args : List Value) : List Nat × Store :=
  if args.length < 3 then
    (WriteError (ascii ("ERR wrong number of arguments for 'set'")), d)
  else
    let key := argBytes args 1
    let v := argB args 2
    let ttlMs : Int :=
      if args.length ≥ 5 then
        let opt := asciiUpper (argBytes args 3)
        if opt = ascii ("EX") then parseIntMs (argBytes args 4) 1000
        else if opt = ascii ("PX") then parseIntMs (argBytes args 4) 1
        else 0
      else 0
    (WriteSimpleString (ascii ("OK")), Store.set d key v ttlMs now)

/-- `handleGet` (main.go): reply the stored bulk, or the null bulk when
the lazy-checking `Store.get` reports the key absent. -/
def handleGetCmd (d : Store) (now : Int) (args : List Value) : List Nat × Store :=
  if args.length ≠ 2 then
    (WriteError (ascii ("ERR wrong number of arguments for 'get'")), d)
  else
    match Store.get d (argBytes args 1) now with
    | none => (WriteBulk none, d)
    | some e => (WriteBulk e.val, d)

/-- `handleDel` (main.go): delete every argument key, reply the count. -/
def handleDelCmd (d : Store) (args : List Value) : List Nat × Store :=
  if args.length < 2 then
    (WriteError (ascii ("ERR wrong number of arguments for 'del'")), d)
  else
    let r := Store.del d ((args.drop 1).map Value.bytes)
    (WriteInteger (r.2 : Int), r.1)

/-- `handleExpire` (main.go): update the expiry in place when the key is
physically present (no lazy-expiry check), replying 1, else 0. -/
def handleExpireCmd (d : Store) (now : Int) (args : List Value) : List Nat × Store :=
  if args.length ≠ 3 then
    (WriteError (ascii ("ERR wrong number of arguments for 'expire'")), d)
  else
    let key := argBytes args 1
    let secs := parseIntMs (argBytes args 2) 1000
    match Store.find d key with
    | some e => (WriteInteger 1, (key, ⟨e.val, wrap64 (now + secs)⟩) :: Store.erase d key)
    | none => (WriteInteger 0, d)

/-- `handleTTL` (main.go). -/
def handleTTLCmd (d : Store) (now : Int) (args : List Value) : List Nat × Store :=
  if args.length ≠ 2 then
    (WriteError (ascii ("ERR wrong number of arguments for 'ttl'")), d)
  else
    (WriteInteger (Store.ttl d (argBytes args 1) now), d)

/-- The command switch of `handleConn` (main.go) for a decoded non-empty
array `args` (the command name is `args[0]`, case-normalised): the reply
bytes written before the flush and the store after the command. -/
def dispatch (d : Store) (now : Int) (args : List Value) : List Nat × Store :=
  let cmd := asciiUpper (Value.bytes (argV args 0))
  if cmd = ascii ("PING") then
    if args.length > 1 then (WriteBulk (argB args 1), d)
    else (WriteSimpleString (ascii ("PONG")), d)
  else if cmd = ascii ("ECHO") then
    if args.length ≠ 2 ∨ ¬ (argV args 1).isBulk then
      (WriteError (ascii ("ERR wrong number of arguments for 'echo'")), d)
    else (WriteBulk (argB args 1), d)
  else if cmd = ascii ("SET") then handleSetCmd d now args
  else if cmd = ascii ("GET") then handleGetCmd d now args
  else if cmd = ascii ("DEL") then handleDelCmd d args
  else if cmd = ascii ("EXPIRE") then handleExpireCmd d now args
  else if cmd = ascii ("TTL") then handleTTLCmd d now args
  else (WriteError (ascii ("ERR unknown command '") ++ cmd ++ [39]), d)

/-- `val.T == resp.Array && len(val.A) > 0`, the guard in `handleConn`. -/
def isCmdArray : Value → Bool
  | .array (_ :: _) => true
  | _ => false

/-- Outcome of one iteration of the `handleConn` loop: `closed` is the
bare `return` (connection released, nothing sent), `replied` carries the
flushed reply, the remaining input, and the store after the command;
`panicked` propagates a decoder panic; `stuck` covers only the decoder's
fuel artefact and is unreachable. -/
inductive ConnStep : Type where
  | closed
  | replied (out : List Nat) (rest : List Nat) (d : Store)
  | panicked
  | stuck

/-- One iteration of the `for` loop in `handleConn` (main.go): on any
decode error — I/O or protocol — it returns (`if err != nil { return }`,
the comment reading `client closed or parse error`); on a decoded value
that is not a non-empty array it replies `ERR protocol error` and keeps
reading; otherwise it dispatches the command. -/
def connStep (d : Store) (now : Int) (s : List Nat) : ConnStep :=
  match Read s with
  | .ok v rest =>
    if isCmdArray v then
      let r := dispatch d now v.elems
      .replied r.1 rest r.2
    else .replied (WriteError (ascii ("ERR protocol error"))) rest d
  | .ioError => .closed
  | .protoError => .closed
  | .panicked => .panicked
  | .fuelOut => .stuck

/-- Side condition under which the spec's scalar round-trip law holds on
the code: simple/error text must not contain an LF byte (the decoder's
line reader stops at the first LF), integers must lie in the int64 range
of the Go `Value.I` field, and a bulk payload length must fit int64
arithmetic. -/
def scalarOK : Value → Prop
  | .simple s => 10 ∉ s
  | .error s => 10 ∉ s
  | .int i => -(2 ^ 63) ≤ i ∧ i < 2 ^ 63
  | .bulk none => True
  | .bulk (some b) => (b.length : Int) + 2 < 2 ^ 63
  | .array _ => False

theorem natDigitsFuel_zero (fuel : Nat) : natDigitsFuel fuel 0 = [] := by
cases fuel <;> simp [natDigitsFuel]

theorem natDigitsFuel_mem :
    ∀ fuel n c, c ∈ natDigitsFuel fuel n → 48 ≤ c ∧ c ≤ 57 := by
intro fuel
induction fuel with
| zero => intro n c h; simp [natDigitsFuel] at h
| succ f ih =>
  intro n c h
  by_cases hn : n = 0
  · simp [natDigitsFuel, hn] at h
  · simp only [natDigitsFuel, hn, if_false, List.mem_append, List.mem_singleton] at h
    rcases h with h | h
    · exact ih _ _ h
    · omega

theorem digitsToNat_append_digit (xs : List Nat) (d : Nat) :
    digitsToNat (xs ++ [d]) = digitsToNat xs * 10 + (d - 48) := by
simp [digitsToNat, List.foldl_append]

theorem natDigitsFuel_val :
    ∀ fuel n, n < fuel → digitsToNat (natDigitsFuel fuel n) = n := by
intro fuel
induction fuel with
| zero => intro n h; omega
| succ f ih =>
  intro n h
  by_cases hn : n = 0
  · simp [natDigitsFuel, hn, digitsToNat]
  · have hdiv : n / 10 < f := by omega
    simp only [natDigitsFuel, hn, if_false]
    rw [digitsToNat_append_digit, ih _ hdiv]
    omega

theorem natDigitsFuel_ne_nil (fuel n : Nat) (h0 : 0 < n) (h : n < fuel) :
    natDigitsFuel fuel n ≠ [] := by
cases fuel with
| zero => omega
| succ f => simp [natDigitsFuel, show ¬ n = 0 by omega]

theorem natToDecimal_mem (n c : Nat) (h : c ∈ natToDecimal n) :
    48 ≤ c ∧ c ≤ 57 := by
unfold natToDecimal at h
by_cases hn : n = 0
· simp [hn] at h; omega
· simp only [hn, if_false] at h
  exact natDigitsFuel_mem _ _ _ h

theorem natToDecimal_val (n : Nat) : digitsToNat (natToDecimal n) = n := by
unfold natToDecimal
by_cases hn : n = 0
· simp [hn, digitsToNat]
· simp only [hn, if_false]
  exact natDigitsFuel_val _ _ (by omega)

theorem natToDecimal_ne_nil (n : Nat) : natToDecimal n ≠ [] := by
unfold natToDecimal
by_cases hn : n = 0
· simp [hn]
· simp only [hn, if_false]
  exact natDigitsFuel_ne_nil _ _ (by omega) (by omega)

theorem allDigits_natToDecimal (n : Nat) : allDigits (natToDecimal n) = true := by
unfold allDigits
refine (Bool.and_eq_true _ _).mpr ⟨?_, ?_⟩
· simpa [List.isEmpty_iff] using natToDecimal_ne_nil n
· refine List.all_eq_true.mpr fun c hc => ?_
  have := natToDecimal_mem n c hc
  simp only [Bool.and_eq_true, decide_eq_true_eq]
  omega

theorem natToDecimal_no_lf (n : Nat) : 10 ∉ natToDecimal n := by
intro h
have := natToDecimal_mem n 10 h
omega

theorem parsePos_natToDecimal (n : Nat) (h : n ≤ 2 ^ 63 - 1) :
    parsePos (natToDecimal n) = (n : Int) := by
unfold parsePos
rw [allDigits_natToDecimal, if_pos rfl, natToDecimal_val]
unfold clampPos
rw [if_pos h]

theorem goParseInt64_natToDecimal (n : Nat) (h : n ≤ 2 ^ 63 - 1) :
    goParseInt64 (natToDecimal n) = (n : Int) := by
rcases hL : natToDecimal n with _ | ⟨c, rest⟩
· exact absurd hL (natToDecimal_ne_nil n)
· have hc := natToDecimal_mem n c (by rw [hL]; exact List.mem_cons_self c rest)
  rw [goParseInt64, if_neg (by omega), if_neg (by omega), ← hL]
  exact parsePos_natToDecimal n h

theorem goParseInt64_neg_digits (l : List Nat) (hd : allDigits l = true)
    (hle : digitsToNat l ≤ 2 ^ 63) :
    goParseInt64 (45 :: l) = -(digitsToNat l : Int) := by
rw [goParseInt64, if_neg (by omega), if_pos rfl, if_pos hd]
unfold clampNeg
rw [if_pos hle]

theorem goParseInt64_intToDecimal (i : Int) (h1 : -(2 ^ 63) ≤ i) (h2 : i < 2 ^ 63) :
    goParseInt64 (intToDecimal i) = i := by
unfold intToDecimal
by_cases hi : i < 0
· rw [if_pos hi,
    goParseInt64_neg_digits _ (allDigits_natToDecimal _) (by rw [natToDecimal_val]; omega),
    natToDecimal_val]
  omega
· rw [if_neg hi, goParseInt64_natToDecimal _ (by omega)]
  omega

theorem intToDecimal_no_lf (i : Int) : 10 ∉ intToDecimal i := by
unfold intToDecimal
by_cases hi : i < 0
· rw [if_pos hi]
  intro h
  rcases List.mem_cons.mp h with h | h
  · omega
  · exact natToDecimal_no_lf _ h
· rw [if_neg hi]; exact natToDecimal_no_lf _

theorem wrap64_eq (x : Int) (h1 : -(2 ^ 63) ≤ x) (h2 : x < 2 ^ 63) :
    wrap64 x = x := by
unfold wrap64; omega

theorem readBytesNL_split (s r : List Nat) (h : 10 ∉ s) :
    readBytesNL (s ++ 10 :: r) = some (s ++ [10], r) := by
induction s with
| nil => simp [readBytesNL]
| cons c s ih =>
  have hc : c ≠ 10 := fun hc => h (by simp [hc])
  have hs : 10 ∉ s := fun hs => h (List.mem_cons_of_mem _ hs)
  simp [readBytesNL, hc, ih hs]

theorem trimCRLF_crlf (s : List Nat) : trimCRLF (s ++ [13, 10]) = s := by
have hrev : (s ++ [13, 10]).reverse = 10 :: 13 :: s.reverse := by simp
simp [trimCRLF, hrev]

theorem readLine_crlf (s r : List Nat) (h : 10 ∉ s) :
    readLine (s ++ [13, 10] ++ r) = some (s, r) := by
have h13 : (10 : Nat) ∉ s ++ [13] := by
  intro hm
  rcases List.mem_append.mp hm with hm | hm
  · exact h hm
  · simp at hm
have heq : s ++ [13, 10] ++ r = (s ++ [13]) ++ 10 :: r := by simp
rw [heq, readLine, readBytesNL_split _ _ h13]
show some (trimCRLF (s ++ [13] ++ [10]), r) = some (s, r)
have hjoin : s ++ [13] ++ [10] = s ++ [13, 10] := by simp
rw [hjoin, trimCRLF_crlf]

theorem Read_eq_step (s : List Nat) : Read s = readStep (readF s.length) s := rfl

theorem readStep_write_simple (rd : List Nat → ReadResult) (s : List Nat) (h : 10 ∉ s) :
    readStep rd (WriteSimpleString s) = ReadResult.ok (Value.simple s) [] := by
have hl : readLine (s ++ crlf) = some (s, []) := by
  have heq : s ++ crlf = s ++ [13, 10] ++ [] := by simp [crlf]
  rw [heq, readLine_crlf s [] h]
simp [WriteSimpleString, readStep, hl]

theorem readStep_write_error (rd : List Nat → ReadResult) (s : List Nat) (h : 10 ∉ s) :
    readStep rd (WriteError s) = ReadResult.ok (Value.error s) [] := by
have hl : readLine (s ++ crlf) = some (s, []) := by
  have heq : s ++ crlf = s ++ [13, 10] ++ [] := by simp [crlf]
  rw [heq, readLine_crlf s [] h]
simp [WriteError, readStep, hl]

theorem readStep_write_integer (rd : List Nat → ReadResult) (i : Int)
    (h1 : -(2 ^ 63) ≤ i) (h2 : i < 2 ^ 63) :
    readStep rd (WriteInteger i) = ReadResult.ok (Value.int i) [] := by
have hl : readLine (intToDecimal i ++ crlf) = some (intToDecimal i, []) := by
  have heq : intToDecimal i ++ crlf = intToDecimal i ++ [13, 10] ++ [] := by simp [crlf]
  rw [heq, readLine_crlf _ [] (intToDecimal_no_lf i)]
simp [WriteInteger, readStep, hl, goParseInt64_intToDecimal i h1 h2]

theorem readStep_write_bulk_some (rd : List Nat → ReadResult) (b : List Nat)
    (h : (b.length : Int) + 2 < 2 ^ 63) :
    readStep rd (WriteBulk (some b)) = ReadResult.ok (Value.bulk (some b)) [] := by
have hlen : b.length ≤ 2 ^ 63 - 1 := by omega
have hl : readLine (natToDecimal b.length ++ crlf ++ b ++ crlf)
    = some (natToDecimal b.length, b ++ crlf) := by
  have heq : natToDecimal b.length ++ crlf ++ b ++ crlf
      = natToDecimal b.length ++ [13, 10] ++ (b ++ crlf) := by simp [crlf]
  rw [heq, readLine_crlf _ _ (natToDecimal_no_lf _)]
have hlo : readLineOr (natToDecimal b.length ++ crlf ++ b ++ crlf)
    = (natToDecimal b.length, b ++ crlf) := by
  unfold readLineOr; rw [hl]
have hparse := goParseInt64_natToDecimal b.length hlen
have hwrap : wrap64 ((b.length : Int) + 2) = (b.length : Int) + 2 :=
  wrap64_eq _ (by omega) (by omega)
show readBulkBody (readLineOr (natToDecimal b.length ++ crlf ++ b ++ crlf)).1
    (readLineOr (natToDecimal b.length ++ crlf ++ b ++ crlf)).2
    = ReadResult.ok (Value.bulk (some b)) []
rw [hlo]
unfold readBulkBody
simp only [hparse, hwrap]
rw [if_neg (by omega), if_neg (by omega), if_neg (by omega)]
have hdrop : (b ++ crlf).drop (b.length + 2) = [] := by
  have hln : b.length + 2 = (b ++ crlf).length := by simp [crlf]
  rw [hln, List.drop_length]
have htake : (b ++ crlf).take b.length = b := List.take_left b crlf
simp [crlf, hdrop, htake]

theorem readStep_write_bulk_none (rd : List Nat → ReadResult) :
    readStep rd (WriteBulk none) = ReadResult.ok (Value.bulk none) [] := rfl

theorem find_not_mem_keys (d : Store) (key : List Nat)
    (h : key ∉ d.map Prod.fst) : Store.find d key = none := by
induction d with
| nil => rfl
| cons p rest ih =>
  obtain ⟨k0, e0⟩ := p
  simp only [List.map_cons, List.mem_cons, not_or] at h
  rw [Store.find, if_neg (Ne.symm h.1)]
  exact ih h.2

theorem find_erase (d : Store) (k key : List Nat) :
    Store.find (Store.erase d k) key = if key = k then none else Store.find d key := by
induction d with
| nil => simp [Store.erase, Store.find]
| cons p rest ih =>
  obtain ⟨k0, e0⟩ := p
  by_cases h0 : k0 = k
  · rw [Store.erase, if_pos h0, ih]
    by_cases h1 : key = k
    · simp [h1]
    · have hk0 : ¬ k0 = key := fun hh => h1 (hh.symm.trans h0)
      simp [Store.find, h1, hk0]
  · rw [Store.erase, if_neg h0]
    by_cases h2 : k0 = key
    · have hky : ¬ key = k := fun hh => h0 (h2.trans hh)
      simp [Store.find, h2, hky]
    · simp [Store.find, h2, ih]

theorem find_set (d : Store) (k : List Nat) (v : Option (List Nat)) (ttlMs now : Int)
    (key : List Nat) :
    Store.find (Store.set d k v ttlMs now) key =
      if key = k then some ⟨v, if ttlMs > 0 then wrap64 (now + ttlMs) else 0⟩
      else Store.find d key := by
unfold Store.set
by_cases h : key = k
· simp [Store.find, h]
· simp [Store.find, h, Ne.symm h, find_erase]

theorem find_sweep_none (now : Int) (d : Store) (key : List Nat)
    (h : Store.find d key = none) :
    Store.find (janitorSweep now d) key = none := by
induction d with
| nil => rfl
| cons p rest ih =>
  obtain ⟨k0, e0⟩ := p
  rw [Store.find] at h
  by_cases h0 : k0 = key
  · simp [h0] at h
  · rw [if_neg h0] at h
    rw [janitorSweep]
    by_cases hex : e0.exp > 0 ∧ now > e0.exp
    · rw [if_pos hex]; exact ih h
    · rw [if_neg hex, Store.find, if_neg h0]; exact ih h

theorem find_sweep (now : Int) (d : Store) (h : keysNodup d) (key : List Nat) :
    Store.find (janitorSweep now d) key =
      match Store.find d key with
      | none => none
      | some e => if e.exp > 0 ∧ now > e.exp then none else some e := by
induction d with
| nil => rfl
| cons p rest ih =>
  obtain ⟨k0, e0⟩ := p
  have hnd : keysNodup rest := by
    simpa [keysNodup] using (List.nodup_cons.mp (by simpa [keysNodup] using h)).2
  have hk0 : k0 ∉ rest.map Prod.fst :=
    (List.nodup_cons.mp (by simpa [keysNodup] using h)).1
  by_cases h0 : k0 = key
  · subst h0
    rw [Store.find, if_pos rfl, janitorSweep]
    by_cases hex : e0.exp > 0 ∧ now > e0.exp
    · rw [if_pos hex, find_sweep_none now rest k0 (find_not_mem_keys rest k0 hk0)]
      simp [hex]
    · rw [if_neg hex, Store.find, if_pos rfl]
      simp [hex]
  · rw [Store.find, if_neg h0, janitorSweep]
    by_cases hex : e0.exp > 0 ∧ now > e0.exp
    · rw [if_pos hex]; exact ih hnd
    · rw [if_neg hex, Store.find, if_neg h0]; exact ih hnd

theorem del_find (d : Store) (keys : List (List Nat)) (key : List Nat) :
    Store.find (Store.del d keys).1 key =
      if key ∈ keys then none else Store.find d key := by
induction keys generalizing d with
| nil => simp [Store.del]
| cons k ks ih =>
  rw [Store.del]
  by_cases hp : (Store.find d k).isSome
  · rw [if_pos hp]
    show Store.find (Store.del (Store.erase d k) ks).1 key = _
    rw [ih (Store.erase d k), find_erase]
    by_cases h1 : key ∈ ks <;> by_cases h2 : key = k <;> simp [h1, h2]
  · rw [if_neg hp, ih d]
    have hd : Store.find d k = none := by
      cases hfd : Store.find d k
      · rfl
      · rw [hfd] at hp; simp at hp
    by_cases h1 : key ∈ ks
    · simp [h1]
    · by_cases h2 : key = k
      · subst h2; simp [h1, hd]
      · simp [h1, h2]

theorem del_count (d : Store) (keys : List (List Nat)) (h : keys.Nodup) :
    (Store.del d keys).2 =
      (keys.filter (fun k => (Store.find d k).isSome)).length := by
induction keys generalizing d with
| nil => simp [Store.del]
| cons k ks ih =>
  have hk : k ∉ ks := (List.nodup_cons.mp h).1
  have hks : ks.Nodup := (List.nodup_cons.mp h).2
  rw [Store.del]
  by_cases hp : (Store.find d k).isSome
  · rw [if_pos hp]
    show (Store.del (Store.erase d k) ks).2 + 1 = _
    rw [ih (Store.erase d k) hks, List.filter_cons, if_pos (by simpa using hp)]
    have hcong : ∀ x ∈ ks,
        ((Store.find (Store.erase d k) x).isSome : Bool)
          = ((Store.find d x).isSome : Bool) := by
      intro x hx
      rw [find_erase, if_neg (by rintro rfl; exact hk hx)]
    rw [List.filter_congr hcong]
    simp
  · rw [if_neg hp, ih d hks, List.filter_cons, if_neg (by simpa using hp)]

/-- C1: the claim states that decoding any byte sequence either yields a
Value or returns an error and never panics or aborts the process.  The
code violates it: an array header with a negative count reaches
`make([]Value, n)` with `n < 0`, and a bulk length below -1 reaches
`make([]byte, n+2)` / `buf[:n]` with a negative size, both of which
panic at run time; the unrecovered panic in the connection goroutine
aborts the whole server process.  This theorem evaluates the decoder at
the failing requests `*-1\r\n` and `$-3\r\n`. -/
theorem c1_negative_count_panics :
    Read [42, 45, 49, 13, 10] = ReadResult.panicked ∧
    Read [36, 45, 51, 13, 10] = ReadResult.panicked :=
  ⟨rfl, rfl⟩

/-- C2: the claim states that a stream ending right after the prefix byte
of a simple string, error, or integer makes decode fail with the I/O
error.  The code violates it: `line, _ := readLine(r)` discards the I/O
error, so decode returns a fabricated `SimpleString("")`, `Error("")`, or
`Integer(0)` with a nil error instead of propagating the failure.  This
theorem evaluates the decoder at the one-byte streams `+`, `-`, `:`. -/
theorem c2_truncated_input_fabricates_value :
    Read [43] = ReadResult.ok (Value.simple []) [] ∧
    Read [45] = ReadResult.ok (Value.error []) [] ∧
    Read [58] = ReadResult.ok (Value.int 0) [] :=
  ⟨rfl, rfl, rfl⟩

/-- C3 counterexample: the claim says a protocol-format decode failure
(unknown prefix byte) gets an error reply with the connection kept open.
On the request starting with `!` (byte 33) decode returns the protocol
error, yet the connection loop closes the connection silently
(`if err != nil { return }` treats every decode error alike). -/
theorem c3_counterexample :
    Read [33] = ReadResult.protoError ∧ connStep [] 0 [33] = ConnStep.closed :=
  ⟨rfl, rfl⟩

/-- C3 amended: every decode failure — protocol-format or I/O — makes the
connection loop close the connection silently with no reply; the
error-reply-and-keep-reading path applies only to a successfully decoded
value that is not a non-empty array. -/
theorem c3_decode_error_closes (d : Store) (now : Int) (s : List Nat) :
    (Read s = ReadResult.protoError → connStep d now s = ConnStep.closed) ∧
    (Read s = ReadResult.ioError → connStep d now s = ConnStep.closed) ∧
    (∀ v rest, Read s = ReadResult.ok v rest → isCmdArray v = false →
        connStep d now s
          = ConnStep.replied (WriteError (ascii ("ERR protocol error"))) rest d) := by
refine ⟨?_, ?_, ?_⟩
· intro h; unfold connStep; rw [h]
· intro h; unfold connStep; rw [h]
· intro v rest h hv
  unfold connStep
  rw [h]
  simp [hv]

theorem c3_decode_error_closes_witness : connStep [] 0 [35] = ConnStep.closed :=
  (c3_decode_error_closes [] 0 [35]).1 rfl

/-- C4 counterexample: the round-trip law `decode(encode(v)) == v` fails
for the simple string `a\nb`: its encoding is `+a\nb\r\n`, and the
decoder's line reader stops at the first LF, yielding `a\n` instead. -/
theorem c4_counterexample :
    decodeValue (writeScalar (Value.simple [97, 10, 98]))
      ≠ some (Value.simple [97, 10, 98]) := by
intro h
have h1 : some (Value.simple [97, 10]) = some (Value.simple [97, 10, 98]) := h
simp at h1

/-- C4 amended: `decode(encode(v)) == v` (with the whole input consumed)
holds for every scalar value whose simple/error text contains no LF byte,
every integer in the int64 range of the Go `Value.I` field, and every
bulk string — null or with a length fitting int64 arithmetic. -/
theorem c4_scalar_roundtrip (v : Value) (h : scalarOK v) :
    Read (writeScalar v) = ReadResult.ok v [] := by
cases v with
| simple s => exact readStep_write_simple (readF (WriteSimpleString s).length) s h
| error s => exact readStep_write_error (readF (WriteError s).length) s h
| int i => exact readStep_write_integer (readF (WriteInteger i).length) i h.1 h.2
| bulk b =>
  cases b with
  | none => exact readStep_write_bulk_none (readF (WriteBulk none).length)
  | some bb => exact readStep_write_bulk_some (readF (WriteBulk (some bb)).length) bb h
| array a => exact h.elim

theorem c4_scalar_roundtrip_witness :
    Read (writeScalar (Value.bulk (some [0, 13, 10])))
      = ReadResult.ok (Value.bulk (some [0, 13, 10])) [] :=
  c4_scalar_roundtrip (Value.bulk (some [0, 13, 10]))
    (show ((([0, 13, 10] : List Nat).length : Int) + 2 < 2 ^ 63) by decide)

/-- C5: `SET k v` with no TTL option followed by `GET k` replies exactly
the bulk `v`; `Store.set` stores absolute expiry `now + ttl` when
`ttl > 0` and `0` otherwise (int64 arithmetic assumed non-overflowing),
and unconditionally replaces any existing entry for `k`. -/
theorem c5_set_then_get (d : Store) (k v : List Nat) (ttlMs now now2 : Int)
    (h1 : -(2 ^ 63) ≤ now + ttlMs) (h2 : now + ttlMs < 2 ^ 63) :
    Store.find (Store.set d k (some v) ttlMs now) k
      = some ⟨some v, if ttlMs > 0 then now + ttlMs else 0⟩ ∧
    (handleGetCmd
        (handleSetCmd d now
          [Value.bulk (some (ascii ("SET"))), Value.bulk (some k),
            Value.bulk (some v)]).2
        now2 [Value.bulk (some (ascii ("GET"))), Value.bulk (some k)]).1
      = WriteBulk (some v) := by
constructor
· rw [find_set, if_pos rfl]
  by_cases hp : ttlMs > 0
  · rw [if_pos hp, if_pos hp, wrap64_eq _ h1 h2]
  · rw [if_neg hp, if_neg hp]
· have hset : (handleSetCmd d now
      [Value.bulk (some (ascii ("SET"))), Value.bulk (some k),
        Value.bulk (some v)]).2 = Store.set d k (some v) 0 now := by
    simp [handleSetCmd, argBytes, argB, argV, Value.B]
  rw [hset]
  have hget : Store.get (Store.set d k (some v) 0 now) k now2
      = some ⟨some v, 0⟩ := by
    unfold Store.get
    rw [find_set, if_pos rfl]
    norm_num
  simp [handleGetCmd, argBytes, argB, argV, Value.B, hget]

theorem c5_set_then_get_witness :
    Store.find (Store.set [] [107] (some [118]) 0 0) [107]
      = some ⟨some [118], 0⟩ ∧
    (handleGetCmd
        (handleSetCmd [] 0
          [Value.bulk (some (ascii ("SET"))), Value.bulk (some [107]),
            Value.bulk (some [118])]).2
        3 [Value.bulk (some (ascii ("GET"))), Value.bulk (some [107])]).1
      = WriteBulk (some [118]) := by
have h := c5_set_then_get [] [107] [118] 0 0 3 (by decide) (by decide)
simpa using h

/-- C6: for every store state, key, and time, `Store.get` treats a
present entry with nonzero expiry strictly in the past exactly as an
absent key — `GET` replies the null bulk and leaves the mapping
untouched; an absent key stays absent and a live entry is returned
unchanged; and the result is the same whether or not a janitor sweep at
the same time has run. -/
theorem c6_lazy_expiry (d : Store) (k : List Nat) (now : Int) :
    (Store.find d k = none → Store.get d k now = none) ∧
    (∀ e, Store.find d k = some e → e.exp > 0 → now > e.exp →
        Store.get d k now = none ∧
        handleGetCmd d now [Value.bulk (some (ascii ("GET"))), Value.bulk (some k)]
          = (WriteBulk none, d)) ∧
    (∀ e, Store.find d k = some e → ¬(e.exp > 0 ∧ now > e.exp) →
        Store.get d k now = some e) ∧
    (keysNodup d → Store.get (janitorSweep now d) k now = Store.get d k now) := by
refine ⟨?_, ?_, ?_, ?_⟩
· intro h; unfold Store.get; rw [h]
· intro e he hx hn
  have hget : Store.get d k now = none := by
    unfold Store.get; rw [he]
    show (if e.exp > 0 ∧ now > e.exp then none else some e) = none
    rw [if_pos ⟨hx, hn⟩]
  refine ⟨hget, ?_⟩
  simp [handleGetCmd, argBytes, argB, argV, Value.B, hget]
· intro e he hne; unfold Store.get; rw [he]
  show (if e.exp > 0 ∧ now > e.exp then none else some e) = some e
  rw [if_neg hne]
· intro hnd
  unfold Store.get
  rw [find_sweep now d hnd k]
  cases hf : Store.find d k with
  | none => rfl
  | some e =>
    by_cases hex : e.exp > 0 ∧ now > e.exp
    · simp [hex]
    · simp [hex]

theorem c6_lazy_expiry_witness :
    Store.get [([1], ⟨some [2], 5⟩)] [1] 9 = none ∧
    handleGetCmd [([1], ⟨some [2], 5⟩)] 9
        [Value.bulk (some (ascii ("GET"))), Value.bulk (some [1])]
      = (WriteBulk none, [([1], ⟨some [2], 5⟩)]) :=
  (c6_lazy_expiry [([1], ⟨some [2], 5⟩)] [1] 9).2.1 ⟨some [2], 5⟩ (by decide)
    (by decide) (by decide)

set_option maxRecDepth 100000 in
/-- C7 counterexample: the claim says a key whose remaining time is
negative replies -2, never a wrong count.  The wire-reachable request
`SET k v PX 9223372036854775807` at time 1700000000000 stores the
wrapped expiry -9223370336854775809 — nonzero and strictly in the past —
yet `TTL k` at the same instant wraps `e.exp - now` to MaxInt64 and
replies 9223372036854775 seconds instead of -2. -/
theorem c7_counterexample :
    Store.find ((handleSetCmd [] 1700000000000
        [Value.bulk (some (ascii ("SET"))), Value.bulk (some [107]),
          Value.bulk (some [118]), Value.bulk (some (ascii ("PX"))),
          Value.bulk (some (ascii ("9223372036854775807")))]).2) [107]
      = some ⟨some [118], -9223370336854775809⟩ ∧
    (-9223370336854775809 : Int) ≠ 0 ∧
    (-9223370336854775809 : Int) < 1700000000000 ∧
    Store.ttl ((handleSetCmd [] 1700000000000
        [Value.bulk (some (ascii ("SET"))), Value.bulk (some [107]),
          Value.bulk (some [118]), Value.bulk (some (ascii ("PX"))),
          Value.bulk (some (ascii ("9223372036854775807")))]).2) [107]
        1700000000000
      = 9223372036854775 := by
refine ⟨by decide, by decide, by decide, by decide⟩

/-- C7 amended: `TTL` replies -2 when the key is absent; -1 when it is
present with expiry 0; the remaining milliseconds are computed with Go's
wrapping int64 subtraction, and provided that subtraction does not
overflow int64, a key with negative remaining time replies -2 (never a
negative second count), an unexpired key replies the non-negative number
of whole seconds remaining, and after `SET k v EX s` (with the SET-time
arithmetic also in int64 range and a nonnegative clock) the reply never
exceeds `s`.  When `e.exp - now` underflows int64 the wrapped value is
positive and `TTL` replies a huge positive count for an expired key, as
the counterexample shows. -/
theorem c7_ttl_reply (d : Store) (k : List Nat) (now : Int) :
    (Store.find d k = none → Store.ttl d k now = -2) ∧
    (∀ e, Store.find d k = some e → e.exp ≠ 0 → -(2 ^ 63) ≤ e.exp - now →
        e.exp - now < 0 → Store.ttl d k now = -2) ∧
    (∀ e, Store.find d k = some e → e.exp = 0 → Store.ttl d k now = -1) ∧
    (∀ e, Store.find d k = some e → e.exp ≠ 0 → 0 ≤ e.exp - now →
        e.exp - now < 2 ^ 63 →
        Store.ttl d k now = (e.exp - now) / 1000 ∧ 0 ≤ Store.ttl d k now) ∧
    (∀ (v : Option (List Nat)) (s t0 : Int), 0 ≤ s → t0 ≤ now → 0 ≤ now →
        -(2 ^ 63) ≤ t0 + s * 1000 → t0 + s * 1000 < 2 ^ 63 →
        -(2 ^ 63) ≤ t0 + s * 1000 - now →
        Store.ttl (Store.set d k v (s * 1000) t0) k now ≤ s) := by
refine ⟨?_, ?_, ?_, ?_, ?_⟩
· intro h; unfold Store.ttl; rw [h]
· intro e he h1 hlo h2; unfold Store.ttl; rw [he]
  show (if e.exp = 0 then (-1 : Int)
      else if wrap64 (e.exp - now) < 0 then -2
      else wrap64 (e.exp - now) / 1000) = -2
  rw [if_neg h1, wrap64_eq _ hlo (by omega), if_pos h2]
· intro e he h0; unfold Store.ttl; rw [he]
  show (if e.exp = 0 then (-1 : Int)
      else if wrap64 (e.exp - now) < 0 then -2
      else wrap64 (e.exp - now) / 1000) = -1
  rw [if_pos h0]
· intro e he h1 h2 h3
  have hval : Store.ttl d k now = (e.exp - now) / 1000 := by
    unfold Store.ttl; rw [he]
    show (if e.exp = 0 then (-1 : Int)
        else if wrap64 (e.exp - now) < 0 then -2
        else wrap64 (e.exp - now) / 1000)
      = (e.exp - now) / 1000
    rw [if_neg h1, wrap64_eq _ (by omega) h3, if_neg (by omega)]
  refine ⟨hval, ?_⟩
  rw [hval]
  omega
· intro v s t0 hs ht0 hnow hr1 hr2 hr3
  have hfind := find_set d k v (s * 1000) t0 k
  rw [if_pos rfl] at hfind
  by_cases hpos : s * 1000 > 0
  · have hfind2 : Store.find (Store.set d k v (s * 1000) t0) k
        = some ⟨v, t0 + s * 1000⟩ := by
      rw [hfind, if_pos hpos, wrap64_eq _ hr1 hr2]
    unfold Store.ttl
    rw [hfind2]
    have hw : wrap64 (t0 + s * 1000 - now) = t0 + s * 1000 - now :=
      wrap64_eq _ hr3 (by omega)
    show (if t0 + s * 1000 = 0 then (-1 : Int)
        else if wrap64 (t0 + s * 1000 - now) < 0 then -2
        else wrap64 (t0 + s * 1000 - now) / 1000) ≤ s
    rw [hw]
    split_ifs <;> omega
  · have hfind2 : Store.find (Store.set d k v (s * 1000) t0) k
        = some ⟨v, 0⟩ := by
      rw [hfind, if_neg hpos]
    unfold Store.ttl
    rw [hfind2]
    show (if (0 : Int) = 0 then (-1 : Int)
        else if wrap64 ((0 : Int) - now) < 0 then -2
        else wrap64 ((0 : Int) - now) / 1000) ≤ s
    rw [if_pos rfl]
    omega

theorem c7_ttl_reply_witness :
    Store.ttl (Store.set [] [107] (some [118]) (2 * 1000) 0) [107] 1500 ≤ 2 :=
  (c7_ttl_reply [] [107] 1500).2.2.2.2 (some [118]) 2 0 (by decide) (by decide)
    (by decide) (by decide) (by decide) (by decide)

/-- C8: `Store.del` removes exactly the keys physically present in the
mapping — with no lazy-expiry filtering, so an expired-but-unswept entry
is removed and counted too — and returns the number removed. -/
theorem c8_del_semantics (d : Store) (keys : List (List Nat)) :
    (∀ k, Store.find (Store.del d keys).1 k
        = if k ∈ keys then none else Store.find d k) ∧
    (keys.Nodup → (Store.del d keys).2
        = (keys.filter (fun k => (Store.find d k).isSome)).length) :=
  ⟨fun k => del_find d keys k, fun h => del_count d keys h⟩

theorem c8_del_semantics_witness :
    Store.find (Store.del [([97], ⟨some [1], 0⟩)] [[97], [98]]).1 [97] = none ∧
    (Store.del [([97], ⟨some [1], 0⟩)] [[97], [98]]).2 = 1 := by
have h := c8_del_semantics [([97], ⟨some [1], 0⟩)] [[97], [98]]
exact ⟨(h.1 [97]).trans (by decide), (h.2 (by decide)).trans (by decide)⟩

/-- C9: one janitor tick removes from the mapping exactly the entries
whose expiry is nonzero and strictly before the scan time; every
surviving binding is unchanged, and after the tick no remaining entry is
expired. -/
theorem c9_sweep_exact (d : Store) (now : Int) (h : keysNodup d) :
    (∀ k, Store.find (janitorSweep now d) k
        = match Store.find d k with
          | none => none
          | some e => if e.exp > 0 ∧ now > e.exp then none else some e) ∧
    (∀ k e, Store.find (janitorSweep now d) k = some e →
        ¬(e.exp > 0 ∧ now > e.exp)) := by
refine ⟨fun k => find_sweep now d h k, ?_⟩
intro k e hk
have h1 := find_sweep now d h k
rw [hk] at h1
cases hf : Store.find d k with
| none => rw [hf] at h1; exact absurd h1 (by simp)
| some f =>
  rw [hf] at h1
  have h2 : some e = (if f.exp > 0 ∧ now > f.exp then none else some f) := h1
  by_cases hex : f.exp > 0 ∧ now > f.exp
  · rw [if_pos hex] at h2
    exact absurd h2 (by simp)
  · rw [if_neg hex] at h2
    obtain rfl := Option.some.inj h2.symm
    exact hex

theorem c9_sweep_exact_witness :
    Store.find (janitorSweep 10 [([1], ⟨some [2], 5⟩), ([3], ⟨none, 0⟩)]) [1]
      = none := by
have h := (c9_sweep_exact [([1], ⟨some [2], 5⟩), ([3], ⟨none, 0⟩)] 10
  (by unfold keysNodup; decide)).1 [1]
exact h.trans (by decide)

/-- C10: `SET k` with the null bulk as value stores a nil payload: the
key is physically present (with no expiry), `GET k` replies the same
`$-1` bytes as for a missing key — also after deleting the key — while
`DEL k` still returns 1 and `TTL k` returns -1. -/
theorem c10_set_null_bulk (d : Store) (k : List Nat) (now now2 : Int) (d2 : Store)
    (hd : d2 = (handleSetCmd d now
      [Value.bulk (some (ascii ("SET"))), Value.bulk (some k),
        Value.bulk none]).2) :
    Store.find d2 k = some ⟨none, 0⟩ ∧
    (handleGetCmd d2 now2
        [Value.bulk (some (ascii ("GET"))), Value.bulk (some k)]).1
      = WriteBulk none ∧
    (handleGetCmd (Store.erase d2 k) now2
        [Value.bulk (some (ascii ("GET"))), Value.bulk (some k)]).1
      = WriteBulk none ∧
    (handleDelCmd d2 [Value.bulk (some (ascii ("DEL"))), Value.bulk (some k)]).1
      = WriteInteger 1 ∧
    Store.ttl d2 k now2 = -1 := by
have hset : (handleSetCmd d now
    [Value.bulk (some (ascii ("SET"))), Value.bulk (some k),
      Value.bulk none]).2 = Store.set d k none 0 now := by
  simp [handleSetCmd, argBytes, argB, argV, Value.B]
rw [hset] at hd
subst hd
have hfind : Store.find (Store.set d k none 0 now) k = some ⟨none, 0⟩ := by
  rw [find_set, if_pos rfl]
  norm_num
refine ⟨hfind, ?_, ?_, ?_, ?_⟩
· have hget : Store.get (Store.set d k none 0 now) k now2 = some ⟨none, 0⟩ := by
    unfold Store.get; rw [hfind]; norm_num
  simp [handleGetCmd, argBytes, argB, argV, Value.B, hget]
· have hfe : Store.find (Store.erase (Store.set d k none 0 now) k) k = none := by
    rw [find_erase, if_pos rfl]
  have hget : Store.get (Store.erase (Store.set d k none 0 now) k) k now2
      = none := by
    unfold Store.get; rw [hfe]
  simp [handleGetCmd, argBytes, argB, argV, Value.B, hget]
· have hdel : (Store.del (Store.set d k none 0 now) [k]).2 = 1 := by
    rw [del_count _ _ (by simp)]
    simp [hfind]
  simp [handleDelCmd, Value.bytes, Value.B, hdel]
· unfold Store.ttl
  rw [hfind]
  norm_num

theorem c10_set_null_bulk_witness :
    Store.find ((handleSetCmd [] 0
        [Value.bulk (some (ascii ("SET"))), Value.bulk (some [107]),
          Value.bulk none]).2) [107] = some ⟨none, 0⟩ ∧
    (handleGetCmd ((handleSetCmd [] 0
        [Value.bulk (some (ascii ("SET"))), Value.bulk (some [107]),
          Value.bulk none]).2) 5
        [Value.bulk (some (ascii ("GET"))), Value.bulk (some [107])]).1
      = WriteBulk none ∧
    (handleGetCmd (Store.erase ((handleSetCmd [] 0
        [Value.bulk (some (ascii ("SET"))), Value.bulk (some [107]),
          Value.bulk none]).2) [107]) 5
        [Value.bulk (some (ascii ("GET"))), Value.bulk (some [107])]).1
      = WriteBulk none ∧
    (handleDelCmd ((handleSetCmd [] 0
        [Value.bulk (some (ascii ("SET"))), Value.bulk (some [107]),
          Value.bulk none]).2)
        [Value.bulk (some (ascii ("DEL"))), Value.bulk (some [107])]).1
      = WriteInteger 1 ∧
    Store.ttl ((handleSetCmd [] 0
        [Value.bulk (some (ascii ("SET"))), Value.bulk (some [107]),
          Value.bulk none]).2) [107] 5 = -1 :=
  c10_set_null_bulk [] [107] 0 5 _ rfl

end RedisLite
